import Mathlib

/-!
Verification of the Oreus API orchestrator (src/main.py) against its
natural-language specification.

The repository file src/main.py contains the data-model declarations
(DevServerStatus, DeploymentStatus, the global active dev-server registry)
and the thin-glue endpoints (health check, secrets retrieval, AI stub).
The project/dev-server lifecycle endpoints themselves are elided from the
checked-in file (the file ends with a placeholder comment standing in for
the original lines 555-994), so the lifecycle manager is modelled here from
the specification, while get_secret and health_check are embedded directly
from the code.

All state is embedded with association lists and explicit state passing;
every definition is executable so concrete witnesses evaluate by decide/rfl.
-/

set_option maxRecDepth 8192

deriving instance DecidableEq for Except

namespace Oreus

/-! ## Association-list primitives

Python dictionaries (the in-memory registries of main.py) are embedded as
association lists. -/

/-- Lookup of the first value bound to a key in an association list. -/
def getVal {κ α : Type} [DecidableEq κ] (k : κ) : List (κ × α) → Option α
  | [] => none
  | (k2, v) :: rest => if k2 = k then some v else getVal k rest

/-- Removal of every binding of a key from an association list. -/
def delVal {κ α : Type} [DecidableEq κ] (k : κ) (l : List (κ × α)) : List (κ × α) :=
  l.filter (fun e => decide (e.1 ≠ k))

/-- Insertion or overwrite of a binding in an association list. -/
def setVal {κ α : Type} [DecidableEq κ] (k : κ) (v : α) (l : List (κ × α)) : List (κ × α) :=
  (k, v) :: delVal k l

/-- Keys of an association list, in order. -/
def keysOf {κ α : Type} (l : List (κ × α)) : List κ :=
  l.map (fun e => e.1)


/-! ## Paths

Relative paths arrive as strings; they are split on the slash and resolved
against the project root. A path whose ".." components climb above the root
escapes the workspace and must be rejected, not clamped. -/

/-- Splitting of a character list on the slash character. -/
def splitSlash : List Char → List Char → List String
  | [], cur => [String.mk cur.reverse]
  | c :: rest, cur =>
    if c = '/' then String.mk cur.reverse :: splitSlash rest []
    else splitSlash rest (c :: cur)

/-- Components of a slash-separated path string. -/
def pathComponents (p : String) : List String :=
  splitSlash p.data []

/-- Resolution of path components against a stack of directories already
entered; none means the path climbed above the project root. -/
def resolveAux : List String → List String → Option (List String)
  | acc, [] => some acc.reverse
  | acc, c :: cs =>
    if c = "" ∨ c = "." then resolveAux acc cs
    else if c = ".." then
      match acc with
      | [] => none
      | _ :: acc2 => resolveAux acc2 cs
    else resolveAux (c :: acc) cs

/-- Resolution of a path string relative to the project root: none for a
traversal outside the root or for the empty path. -/
def resolvePath (p : String) : Option (List String) :=
  match resolveAux [] (pathComponents p) with
  | none => none
  | some [] => none
  | some comps => some comps

/-- Check that a path resolves outside the project root. -/
def escapesRoot (p : String) : Bool :=
  (resolveAux [] (pathComponents p)).isNone

/-! ## Data model

Statuses and records follow the DevServerStatus / DeploymentStatus /
ProjectInfo pydantic models declared in src/main.py; the registries are the
spec's Dev-Server Registry, Workspace Store and Deployment Tracker. -/

/-- Dev-server run status, per the DevServerStatus model of src/main.py. -/
inductive DevStatus
  | stopped
  | starting
  | running
  | error
deriving DecidableEq

/-- Deployment status, per the DeploymentStatus model of src/main.py. -/
inductive DeployStatus
  | pending
  | building
  | deploying
  | success
  | failed
deriving DecidableEq

/-- Error taxonomy of the specification. -/
inductive Err
  | NotFound
  | UnknownTemplate
  | InvalidPath
  | WorkspaceConflict
  | AlreadyRunning
  | NotRunning
  | LaunchError
  | DeploymentError
deriving DecidableEq

/-- Project record. -/
structure Project where
  id : String
  name : String
  template : String
  descr : String
deriving DecidableEq

/-- Dev-server run state: status, allocated port, process handle, bounded logs. -/
structure DevServerRun where
  project_id : String
  status : DevStatus
  port : Option Nat
  proc : Nat
  logs : List String
deriving DecidableEq

/-- Deployment record, per the DeploymentStatus model. -/
structure DeploymentRecord where
  deployment_id : Nat
  project_id : String
  environment : String
  status : DeployStatus
  url : Option String
  logs : List String
deriving DecidableEq

/-- Workspace file tree: resolved path components bound to file contents. -/
abbrev FileTree := List (List String × String)

/-- Template: an initial file tree plus a declared start command. -/
structure Template where
  files : List (List String × String)
  start_command : String
deriving DecidableEq

/-- Template registry: the five template identifiers offered by the editor of
src/main.py (fastapi, react, vue, node, python). -/
def templates : List (String × Template) :=
  [ ("fastapi", ⟨[(["main.py"], "from fastapi import FastAPI\napp = FastAPI()\n")],
      "uvicorn main:app --host 0.0.0.0"⟩)
  , ("react", ⟨[(["src", "App.jsx"], "export default function App() \x7b return null \x7d\n"),
      (["package.json"], "\x7b\x7d")], "npm run dev"⟩)
  , ("vue", ⟨[(["src", "App.vue"], "<template></template>\n"),
      (["package.json"], "\x7b\x7d")], "npm run dev"⟩)
  , ("node", ⟨[(["index.js"], "console.log(1)\n")], "node index.js"⟩)
  , ("python", ⟨[(["main.py"], "print(1)\n")], "python main.py"⟩) ]

/-- Whole-orchestrator state: every in-memory registry plus the shared port
pool and fresh-id counters. -/
structure MgrState where
  projects : List (String × Project)
  workspaces : List (String × FileTree)
  devServers : List (String × DevServerRun)
  freePorts : List Nat
  deployments : List (Nat × DeploymentRecord)
  nextDeployId : Nat
  nextProc : Nat
  eventLog : List String
deriving DecidableEq

/-- Check that a run counts as live (holding its port and its project slot). -/
def isActive : DevStatus → Bool
  | .starting => true
  | .running => true
  | _ => false

/-- Cap of the bounded per-run log buffer. -/
def LOG_CAP : Nat := 1000

/-- Append to a bounded log buffer, dropping oldest lines beyond the cap. -/
def pushLog (logs : List String) (line : String) : List String :=
  let l := logs ++ [line]
  l.drop (l.length - LOG_CAP)

/-! ## Operations of the Lifecycle Manager

Modelled from the spec: the project / dev-server / deployment endpoints of
the original main.py (its elided lines 555-994) following sections 4.1-4.6
of the specification. Every operation is an atomic step on MgrState; the
per-project mutual exclusion demanded by section 5 is embodied by each
operation reading and writing the shared registries in one step. -/

/-- Seed a workspace tree from a template's declared files. -/
def seedTree (files : List (List String × String)) : FileTree :=
  files.foldl (fun acc f => setVal f.1 f.2 acc) []

/-- Modelled from the spec: CreateProject (section 4.5) - resolves the
template, creates the workspace seeded with the template files, creates the
Project record; UnknownTemplate passthrough, WorkspaceConflict on a
duplicate id. -/
def createProject (st : MgrState) (pid pname tpl descr : String) :
    Except Err Project × MgrState :=
  match getVal tpl templates with
  | none => (.error .UnknownTemplate, st)
  | some t =>
    if (getVal pid st.projects).isSome || (getVal pid st.workspaces).isSome then
      (.error .WorkspaceConflict, st)
    else
      let proj : Project := ⟨pid, pname, tpl, descr⟩
      (.ok proj,
        { st with projects := setVal pid proj st.projects,
                  workspaces := setVal pid (seedTree t.files) st.workspaces })

/-- Modelled from the spec: WriteFile (section 4.1) - creates or overwrites,
fails with InvalidPath on traversal attempts, NotFound for an unknown
project. -/
def writeFile (st : MgrState) (pid path content : String) :
    Except Err Unit × MgrState :=
  match getVal pid st.workspaces with
  | none => (.error .NotFound, st)
  | some ws =>
    match resolvePath path with
    | none => (.error .InvalidPath, st)
    | some comps =>
      (.ok (),
        { st with workspaces := setVal pid (setVal comps content ws) st.workspaces })

/-- Modelled from the spec: ReadFile (section 4.1) - fails with NotFound if
the path is absent or resolves outside the project root. -/
def readFile (st : MgrState) (pid path : String) : Except Err String :=
  match getVal pid st.workspaces with
  | none => .error .NotFound
  | some ws =>
    match resolvePath path with
    | none => .error .NotFound
    | some comps =>
      match getVal comps ws with
      | none => .error .NotFound
      | some content => .ok content

/-- Archive entry: one file of the exported workspace archive. -/
structure ArchiveEntry where
  entryPath : List String
  entryData : String
deriving DecidableEq

/-- Modelled from the spec: ExportArchive (section 4.1) - the compressed
archive is embedded as its sequence of file entries. -/
def exportTree (ws : FileTree) : List ArchiveEntry :=
  ws.map (fun f => ⟨f.1, f.2⟩)

/-- Export the archive of a project's workspace. -/
def exportArchive (st : MgrState) (pid : String) : Except Err (List ArchiveEntry) :=
  match getVal pid st.workspaces with
  | none => .error .NotFound
  | some ws => .ok (exportTree ws)

/-- Extraction of an exported archive back into a file tree. -/
def extractTree (ar : List ArchiveEntry) : FileTree :=
  ar.foldl (fun acc e => setVal e.entryPath e.entryData acc) []

/-- Modelled from the spec: the successful arm of Start (section 4.4) -
allocates a free port from the shared pool, resolves the start command via
the Template Registry, spawns the process and records the run in status
starting. -/
def startFresh (st : MgrState) (pid : String) (proj : Project) :
    Except Err DevServerRun × MgrState :=
  match getVal proj.template templates with
  | none => (.error .UnknownTemplate, st)
  | some _ =>
    match st.freePorts with
    | [] => (.error .LaunchError, st)
    | q :: rest =>
      let run : DevServerRun := ⟨pid, .starting, some q, st.nextProc, []⟩
      (.ok run,
        { st with devServers := setVal pid run st.devServers,
                  freePorts := rest,
                  nextProc := st.nextProc + 1 })

/-- Modelled from the spec: StartDevServer (sections 4.4/4.5) - NotFound
for an absent project, AlreadyRunning if a run exists for the project in
status starting or running, otherwise a fresh port allocation and launch. -/
def startDevServer (st : MgrState) (pid : String) :
    Except Err DevServerRun × MgrState :=
  match getVal pid st.projects with
  | none => (.error .NotFound, st)
  | some proj =>
    match getVal pid st.devServers with
    | some run =>
      if isActive run.status then (.error .AlreadyRunning, st)
      else startFresh st pid proj
    | none => startFresh st pid proj

/-- Modelled from the spec: the readiness probe of the Process Supervisor
(section 4.3) promoting a starting run to running. -/
def promoteRun (st : MgrState) (pid : String) : MgrState :=
  match getVal pid st.devServers with
  | some run =>
    if run.status = .starting then
      { st with devServers := setVal pid { run with status := .running } st.devServers }
    else st
  | none => st

/-- Modelled from the spec: StopDevServer (section 4.4) - NotRunning if no
run is live for the project, otherwise the process is terminated, the
record destroyed and the port released back to the shared pool. -/
def stopDevServer (st : MgrState) (pid : String) : Except Err Unit × MgrState :=
  match getVal pid st.devServers with
  | none => (.error .NotRunning, st)
  | some run =>
    if isActive run.status then
      (.ok (),
        { st with devServers := delVal pid st.devServers,
                  freePorts := st.freePorts ++ run.port.toList })
    else (.error .NotRunning, st)

/-- Modelled from the spec: the best-effort dev-server cleanup inside
DeleteProject (section 4.5) - a failing terminate is logged, never fatal,
and the registry entry and port are reclaimed regardless. -/
def devCleanup (st : MgrState) (pid : String) (termFails : Bool) : MgrState :=
  match getVal pid st.devServers with
  | none => st
  | some run =>
    { st with devServers := delVal pid st.devServers,
              freePorts := st.freePorts ++
                (if isActive run.status then run.port.toList else []),
              eventLog := if termFails then
                  st.eventLog ++ ["failed to stop dev server for " ++ pid]
                else st.eventLog }

/-- Modelled from the spec: DeleteProject (section 4.5) - stops any active
dev server first (best-effort, errors logged not fatal), then destroys the
workspace, then removes the Project record. -/
def deleteProject (st : MgrState) (pid : String) (termFails : Bool) :
    Except Err Unit × MgrState :=
  match getVal pid st.projects with
  | none => (.error .NotFound, st)
  | some _ =>
    let st1 := devCleanup st pid termFails
    let st2 := { st1 with workspaces := delVal pid st1.workspaces }
    let st3 := { st2 with projects := delVal pid st2.projects }
    (.ok (), st3)

/-- Modelled from the spec: ListProjects (section 4.5). -/
def listProjects (st : MgrState) : List Project :=
  st.projects.map (fun e => e.2)

/-- Diagnostic line recorded when the supervisor observes a crash. -/
def crashMsg (code : Int) : String :=
  "dev server exited unexpectedly with code " ++ toString code

/-- Transition of a run that the supervisor observed crashing: status error,
port released, diagnostic appended, record retained. -/
def crashRun (run : DevServerRun) (code : Int) : DevServerRun :=
  { run with status := .error, port := none, logs := pushLog run.logs (crashMsg code) }

/-- Modelled from the spec: per-run action of one supervisor poll cycle
(sections 4.3/4.4): a running entry whose process exited with a non-zero
code transitions to error; every other entry is untouched. -/
def pollRun (exits : List (Nat × Int)) (run : DevServerRun) : DevServerRun :=
  match getVal run.proc exits with
  | some code =>
    if run.status = .running then
      if code = 0 then run else crashRun run code
    else run
  | none => run

/-- Port freed by one run during a poll cycle, if any. -/
def freedRun (exits : List (Nat × Int)) (run : DevServerRun) : Option Nat :=
  match getVal run.proc exits with
  | some code =>
    if run.status = .running then
      if code = 0 then none else run.port
    else none
  | none => none

/-- Modelled from the spec: one background poll cycle of the Process
Supervisor (section 4.3) - exits are detected even without an active Poll
call; exits is the oracle mapping process handles to observed exit codes. -/
def supervisorPoll (st : MgrState) (exits : List (Nat × Int)) : MgrState :=
  { st with devServers := st.devServers.map (fun e => (e.1, pollRun exits e.2)),
            freePorts := st.freePorts ++ st.devServers.filterMap (fun e => freedRun exits e.2) }

/-- Rank of a deployment status along the forward pipeline. -/
def statusRank : DeployStatus → Nat
  | .pending => 0
  | .building => 1
  | .deploying => 2
  | .success => 3
  | .failed => 3

/-- Check that a deployment status is terminal. -/
def isTerminal : DeployStatus → Bool
  | .success => true
  | .failed => true
  | _ => false

/-- Modelled from the spec: the forward state sequence of the Deployment
Tracker (section 4.6) - pending to building to deploying to success, with
failure terminating the record from any non-terminal stage. -/
def forwardAllowed : DeployStatus → DeployStatus → Bool
  | .pending, .building => true
  | .building, .deploying => true
  | .deploying, .success => true
  | .pending, .failed => true
  | .building, .failed => true
  | .deploying, .failed => true
  | _, _ => false

/-- Modelled from the spec: Deploy (section 4.5) - packages the workspace,
creates a DeploymentRecord in pending under a fresh deployment id and
returns that id immediately. -/
def deploy (st : MgrState) (pid env : String) : Except Err Nat × MgrState :=
  match getVal pid st.projects, getVal pid st.workspaces with
  | some _, some _ =>
    let did := st.nextDeployId
    let rec0 : DeploymentRecord := ⟨did, pid, env, .pending, none, []⟩
    (.ok did,
      { st with deployments := setVal did rec0 st.deployments,
                nextDeployId := did + 1 })
  | _, _ => (.error .NotFound, st)

/-- Modelled from the spec: Update (section 4.6), the only mutator of
DeploymentRecord, callable solely along the forward state sequence; the url
is set only on success and a log line is appended when given. -/
def updateDeployment (st : MgrState) (did : Nat) (s : DeployStatus)
    (logLine : Option String) (url : Option String) : Except Err Unit × MgrState :=
  match getVal did st.deployments with
  | none => (.error .NotFound, st)
  | some r =>
    if forwardAllowed r.status s then
      let r2 : DeploymentRecord :=
        { r with status := s,
                 logs := match logLine with
                   | some line => pushLog r.logs line
                   | none => r.logs,
                 url := if s = .success then url else r.url }
      (.ok (), { st with deployments := setVal did r2 st.deployments })
    else (.error .DeploymentError, st)

/-- Event alphabet of the orchestrator: every state-mutating operation or
supervision event. -/
inductive Op
  | createProject (pid pname tpl descr : String)
  | deleteProject (pid : String) (termFails : Bool)
  | writeFile (pid path content : String)
  | startDevServer (pid : String)
  | stopDevServer (pid : String)
  | promoteRun (pid : String)
  | supervisorPoll (exits : List (Nat × Int))
  | deploy (pid env : String)
  | updateDeployment (did : Nat) (s : DeployStatus)
      (logLine : Option String) (url : Option String)
deriving DecidableEq

/-- State reached after one operation (the result payload discarded). -/
def applyOp (op : Op) (st : MgrState) : MgrState :=
  match op with
  | .createProject pid pname tpl descr => (createProject st pid pname tpl descr).2
  | .deleteProject pid termFails => (deleteProject st pid termFails).2
  | .writeFile pid path content => (writeFile st pid path content).2
  | .startDevServer pid => (startDevServer st pid).2
  | .stopDevServer pid => (stopDevServer st pid).2
  | .promoteRun pid => promoteRun st pid
  | .supervisorPoll exits => supervisorPoll st exits
  | .deploy pid env => (deploy st pid env).2
  | .updateDeployment did s logLine url => (updateDeployment st did s logLine url).2

/-! ## Port accounting and the global invariant -/

/-- Ports held by live (starting or running) runs of a registry, in order. -/
def runPorts (l : List (String × DevServerRun)) : List Nat :=
  l.filterMap (fun e => if isActive e.2.status then e.2.port else none)

/-- Contribution of a single registry entry to runPorts. -/
def entryPorts (e : String × DevServerRun) : List Nat :=
  (if isActive e.2.status then e.2.port else none).toList

/-- Global invariant of the orchestrator state: the shared port pool and the
live-run ports form a duplicate-free family (no port double-allocated, no
port both live and free), every registry has duplicate-free keys, Project
records carry their own key, workspace trees have duplicate-free paths and
deployment ids stay below the fresh-id counter. -/
def Inv (st : MgrState) : Prop :=
  (runPorts st.devServers ++ st.freePorts).Nodup
  ∧ (keysOf st.devServers).Nodup
  ∧ (keysOf st.projects).Nodup
  ∧ (keysOf st.workspaces).Nodup
  ∧ (keysOf st.deployments).Nodup
  ∧ (∀ e ∈ st.projects, e.2.id = e.1)
  ∧ (∀ e ∈ st.workspaces, (keysOf e.2).Nodup)
  ∧ (∀ e ∈ st.deployments, e.1 < st.nextDeployId)

instance (st : MgrState) : Decidable (Inv st) := by
  unfold Inv
  infer_instance

/-! ## Thin-glue endpoints embedded directly from src/main.py -/

/-- Environment of get_secret: the boto3 secretsmanager client and the JSON
parser, modelled as oracles; an Except.error stands for a raised exception. -/
structure SecretsBackend where
  getSecretValue : String → Except String (List (String × String))
  jsonLoads : String → Except String (List (String × String))

/-- Embedding of get_secret (src/main.py lines 121-135): any exception in
the try block - client failure, missing SecretString key, unparsable
payload - is caught and the empty mapping returned. -/
def get_secret (b : SecretsBackend) (secret_name : String) : List (String × String) :=
  match b.getSecretValue secret_name with
  | Except.error _ => []
  | Except.ok resp =>
    match getVal "SecretString" resp with
    | none => []
    | some raw =>
      match b.jsonLoads raw with
      | Except.error _ => []
      | Except.ok d => d

/-- Check that retrieval fails at some stage of get_secret's try block. -/
def RetrievalFails (b : SecretsBackend) (secret_name : String) : Prop :=
  match b.getSecretValue secret_name with
  | Except.error _ => True
  | Except.ok resp =>
    match getVal "SecretString" resp with
    | none => True
    | some raw =>
      match b.jsonLoads raw with
      | Except.error _ => True
      | Except.ok _ => False

/-- Environment configuration read by the health check: the three service
env vars, APP_ENV, and the api_keys mapping loaded at startup. -/
structure EnvConfig where
  DATABASE_URL : Option String
  REDIS_URL : Option String
  SQS_URL : Option String
  APP_ENV : Option String
  api_keys : List (String × String)

/-- Python truthiness of an optional string (an os.getenv or dict.get
result): present and non-empty. -/
def truthyOpt : Option String → Bool
  | none => false
  | some s => !s.isEmpty

/-- Flag reported for one backing service by the health check. -/
def configuredFlag (b : Bool) : String :=
  if b then "configured" else "not_configured"

/-- HealthResponse model of src/main.py. -/
structure HealthResponse where
  status : String
  environment : String
  version : String
  services : List (String × String)
deriving DecidableEq

/-- Embedding of health_check (src/main.py lines 152-181): reports each
backing service as configured or not_configured and always returns status
healthy, version 1.0.0. -/
def health_check (env : EnvConfig) : HealthResponse :=
  { status := "healthy",
    environment := env.APP_ENV.getD "development",
    version := "1.0.0",
    services :=
      [ ("database", configuredFlag (truthyOpt env.DATABASE_URL))
      , ("redis", configuredFlag (truthyOpt env.REDIS_URL))
      , ("sqs", configuredFlag (truthyOpt env.SQS_URL))
      , ("openai", configuredFlag (truthyOpt (getVal "OPENAI_API_KEY" env.api_keys)))
      , ("anthropic", configuredFlag (truthyOpt (getVal "ANTHROPIC_API_KEY" env.api_keys)))
      , ("xai", configuredFlag (truthyOpt (getVal "XAI_API_KEY" env.api_keys))) ] }

/-! ## Concrete states used by witnesses -/

/-- Example project record used by concrete witnesses. -/
def exProj1 : Project := ⟨"p1", "Demo", "python", "demo project"⟩

/-- Second example project record. -/
def exProj2 : Project := ⟨"p2", "Demo2", "node", ""⟩

/-- Example running dev server holding port 3001. -/
def exRun1 : DevServerRun := ⟨"p1", DevStatus.running, some 3001, 11, []⟩

/-- Example starting dev server holding port 3002. -/
def exRun2 : DevServerRun := ⟨"p2", DevStatus.starting, some 3002, 12, []⟩

/-- Example crashed dev server whose port was already released. -/
def exRun3 : DevServerRun :=
  ⟨"p3", DevStatus.error, none, 10, ["dev server exited unexpectedly with code 9"]⟩

/-- Example pending deployment record. -/
def exDep0 : DeploymentRecord := ⟨0, "p1", "production", DeployStatus.pending, none, []⟩

/-- Example terminal deployment record. -/
def exDep1 : DeploymentRecord :=
  ⟨1, "p1", "staging", DeployStatus.success, some "https://p1.example", []⟩

/-- Example orchestrator state used by concrete witnesses. -/
def exSt : MgrState :=
  { projects := [("p1", exProj1), ("p2", exProj2), ("p3", ⟨"p3", "Old", "python", ""⟩)]
  , workspaces := [("p1", [(["main.py"], "print(1)\n")]),
      ("p2", [(["index.js"], "console.log(1)\n")]), ("p3", [])]
  , devServers := [("p1", exRun1), ("p2", exRun2), ("p3", exRun3)]
  , freePorts := [3003, 3004]
  , deployments := [(0, exDep0), (1, exDep1)]
  , nextDeployId := 2
  , nextProc := 13
  , eventLog := [] }

/-- Example failing secrets backend used by a concrete witness. -/
def exFailingSecrets : SecretsBackend :=
  ⟨fun _ => Except.error "could not connect to secretsmanager",
   fun _ => Except.ok []⟩

theorem getVal_cons {κ α : Type} [DecidableEq κ] (k k3 : κ) (v3 : α) (l : List (κ × α)) :
    getVal k ((k3, v3) :: l) = if k3 = k then some v3 else getVal k l := rfl

theorem delVal_cons_eq {κ α : Type} [DecidableEq κ] {k k3 : κ} (v3 : α) (l : List (κ × α))
    (h : k3 = k) : delVal k ((k3, v3) :: l) = delVal k l := by
  simp [delVal, List.filter_cons, h]

theorem delVal_cons_ne {κ α : Type} [DecidableEq κ] {k k3 : κ} (v3 : α) (l : List (κ × α))
    (h : ¬ k3 = k) : delVal k ((k3, v3) :: l) = (k3, v3) :: delVal k l := by
  simp [delVal, List.filter_cons, h]

theorem getVal_setVal_self {κ α : Type} [DecidableEq κ] (k : κ) (v : α) (l : List (κ × α)) :
    getVal k (setVal k v l) = some v := by
  simp [setVal, getVal]

theorem getVal_delVal_ne {κ α : Type} [DecidableEq κ] {k k2 : κ} (l : List (κ × α))
    (h : k ≠ k2) : getVal k2 (delVal k l) = getVal k2 l := by
  induction l with
  | nil => rfl
  | cons e rest ih =>
    cases e with
    | mk k3 v3 =>
      by_cases he : k3 = k
      · have hne : ¬ k3 = k2 := by rw [he]; exact h
        rw [delVal_cons_eq v3 rest he, getVal_cons, if_neg hne, ih]
      · rw [delVal_cons_ne v3 rest he, getVal_cons, getVal_cons, ih]

theorem getVal_setVal_ne {κ α : Type} [DecidableEq κ] {k k2 : κ} (v : α) (l : List (κ × α))
    (h : k ≠ k2) : getVal k2 (setVal k v l) = getVal k2 l := by
  simp only [setVal, getVal_cons, if_neg h]
  exact getVal_delVal_ne l h

theorem getVal_delVal_self {κ α : Type} [DecidableEq κ] (k : κ) (l : List (κ × α)) :
    getVal k (delVal k l) = none := by
  induction l with
  | nil => rfl
  | cons e rest ih =>
    cases e with
    | mk k3 v3 =>
      by_cases he : k3 = k
      · rw [delVal_cons_eq v3 rest he]; exact ih
      · rw [delVal_cons_ne v3 rest he, getVal_cons, if_neg (fun h2 => he h2), ih]

theorem getVal_eq_none_iff {κ α : Type} [DecidableEq κ] (k : κ) (l : List (κ × α)) :
    getVal k l = none ↔ k ∉ keysOf l := by
  induction l with
  | nil => simp [getVal, keysOf]
  | cons e rest ih =>
    cases e with
    | mk k3 v3 =>
      by_cases he : k3 = k
      · subst he
        simp [getVal_cons, keysOf]
      · rw [getVal_cons, if_neg he]
        simp only [keysOf, List.map_cons, List.mem_cons]
        constructor
        · intro h habs
          rcases habs with h1 | h2
          · exact he h1.symm
          · exact (ih.1 h) h2
        · intro h
          exact ih.2 (fun habs => h (Or.inr habs))

theorem mem_of_getVal_some {κ α : Type} [DecidableEq κ] {k : κ} {v : α} {l : List (κ × α)}
    (h : getVal k l = some v) : (k, v) ∈ l := by
  induction l with
  | nil => simp [getVal] at h
  | cons e rest ih =>
    cases e with
    | mk k3 v3 =>
      by_cases he : k3 = k
      · rw [getVal_cons, if_pos he] at h
        cases h
        subst he
        exact List.mem_cons_self _ _
      · rw [getVal_cons, if_neg he] at h
        exact List.mem_cons_of_mem _ (ih h)

theorem mem_delVal {κ α : Type} [DecidableEq κ] {k : κ} {e : κ × α} {l : List (κ × α)} :
    e ∈ delVal k l ↔ e ∈ l ∧ e.1 ≠ k := by
  simp [delVal, List.mem_filter]

theorem delVal_eq_self_of_not_mem {κ α : Type} [DecidableEq κ] {k : κ} {l : List (κ × α)}
    (h : k ∉ keysOf l) : delVal k l = l := by
  apply List.filter_eq_self.2
  intro e he
  simp only [decide_eq_true_eq]
  intro habs
  exact h (habs ▸ List.mem_map_of_mem (fun x => x.1) he)

theorem keysOf_delVal_nodup {κ α : Type} [DecidableEq κ] (k : κ) {l : List (κ × α)}
    (h : (keysOf l).Nodup) : (keysOf (delVal k l)).Nodup := by
  induction l with
  | nil => simp [delVal, keysOf]
  | cons e rest ih =>
    cases e with
    | mk k3 v3 =>
      simp only [keysOf, List.map_cons, List.nodup_cons] at h
      by_cases he : k3 = k
      · rw [delVal_cons_eq v3 rest he]
        exact ih h.2
      · rw [delVal_cons_ne v3 rest he]
        simp only [keysOf, List.map_cons, List.nodup_cons]
        constructor
        · intro habs
          obtain ⟨x, hx, hxe⟩ := (List.mem_map).1 habs
          have hx2 := (mem_delVal).1 hx
          exact h.1 (hxe ▸ List.mem_map_of_mem (fun y => y.1) hx2.1)
        · exact ih h.2

theorem not_mem_keysOf_delVal {κ α : Type} [DecidableEq κ] (k : κ) (l : List (κ × α)) :
    k ∉ keysOf (delVal k l) := by
  intro habs
  obtain ⟨x, hx, hxe⟩ := (List.mem_map).1 habs
  exact ((mem_delVal).1 hx).2 hxe

theorem keysOf_setVal_nodup {κ α : Type} [DecidableEq κ] (k : κ) (v : α) {l : List (κ × α)}
    (h : (keysOf l).Nodup) : (keysOf (setVal k v l)).Nodup := by
  simp only [setVal, keysOf, List.map_cons, List.nodup_cons]
  exact ⟨not_mem_keysOf_delVal k l, keysOf_delVal_nodup k h⟩

/-- Decomposition of an association list with nodup keys into a found entry and
the rest, as a permutation. -/
theorem perm_cons_delVal {κ α : Type} [DecidableEq κ] {k : κ} {v : α} {l : List (κ × α)}
    (hnd : (keysOf l).Nodup) (h : getVal k l = some v) :
    List.Perm l ((k, v) :: delVal k l) := by
  induction l with
  | nil => simp [getVal] at h
  | cons e rest ih =>
    cases e with
    | mk k3 v3 =>
      simp only [keysOf, List.map_cons, List.nodup_cons] at hnd
      by_cases he : k3 = k
      · subst he
        rw [getVal_cons, if_pos rfl] at h
        cases h
        rw [delVal_cons_eq _ rest rfl,
          delVal_eq_self_of_not_mem (l := rest) (k := k3) hnd.1]
      · rw [getVal_cons, if_neg he] at h
        have hperm := ih hnd.2 h
        have h2 : List.Perm ((k3, v3) :: rest) ((k3, v3) :: (k, v) :: delVal k rest) :=
          hperm.cons _
        have h3 : List.Perm ((k3, v3) :: (k, v) :: delVal k rest)
            ((k, v) :: (k3, v3) :: delVal k rest) :=
          List.Perm.swap _ _ _
        rw [delVal_cons_ne v3 rest he]
        exact h2.trans h3

theorem resolvePath_eq_none_of_escapes {p : String} (h : escapesRoot p = true) :
    resolvePath p = none := by
  unfold escapesRoot at h
  unfold resolvePath
  cases hr : resolveAux [] (pathComponents p) with
  | none => rfl
  | some comps => rw [hr] at h; simp [Option.isNone] at h

theorem runPorts_nil : runPorts [] = [] := rfl

theorem runPorts_cons (e : String × DevServerRun) (l : List (String × DevServerRun)) :
    runPorts (e :: l) = entryPorts e ++ runPorts l := by
  unfold runPorts entryPorts
  cases hb : (if isActive e.2.status then e.2.port else none) with
  | none => simp [List.filterMap_cons, hb]
  | some q => simp [List.filterMap_cons, hb]

theorem runPorts_perm {l l2 : List (String × DevServerRun)} (h : List.Perm l l2) :
    List.Perm (runPorts l) (runPorts l2) :=
  h.filterMap _

/-- Decomposition of the live ports of a registry at one found entry. -/
theorem runPorts_decomp {pid : String} {run : DevServerRun}
    {l : List (String × DevServerRun)} (hnd : (keysOf l).Nodup)
    (h : getVal pid l = some run) :
    List.Perm (runPorts l) (entryPorts (pid, run) ++ runPorts (delVal pid l)) := by
  have hp := runPorts_perm (perm_cons_delVal hnd h)
  rw [runPorts_cons] at hp
  exact hp

/-- Shuffle of three appended blocks used in the port-conservation proofs. -/
theorem perm_swap_blocks {α : Type} (a b c : List α) :
    List.Perm (a ++ (b ++ c)) (b ++ (a ++ c)) := by
  have h1 : a ++ (b ++ c) = (a ++ b) ++ c := (List.append_assoc a b c).symm
  have h2 : List.Perm ((a ++ b) ++ c) ((b ++ a) ++ c) :=
    (List.perm_append_comm).append_right c
  rw [h1, List.append_assoc b a c] at *
  exact h2

theorem keysOf_foldl_setVal_nodup {κ α : Type} [DecidableEq κ]
    (files : List (κ × α)) (acc : List (κ × α)) (h : (keysOf acc).Nodup) :
    (keysOf (files.foldl (fun a f => setVal f.1 f.2 a) acc)).Nodup := by
  induction files generalizing acc with
  | nil => exact h
  | cons f rest ih => exact ih _ (keysOf_setVal_nodup _ _ h)

theorem keysOf_seedTree_nodup (files : List (List String × String)) :
    (keysOf (seedTree files)).Nodup :=
  keysOf_foldl_setVal_nodup files [] (by simp [keysOf])

/-! ## Invariant preservation, operation by operation -/

theorem inv_createProject (st : MgrState) (pid pname tpl descr : String)
    (h : Inv st) : Inv (createProject st pid pname tpl descr).2 := by
  obtain ⟨h1, h2, h3, h4, h5, h6, h7, h8⟩ := h
  unfold createProject
  cases htpl : getVal tpl templates with
  | none => exact ⟨h1, h2, h3, h4, h5, h6, h7, h8⟩
  | some t =>
    cases hex : (getVal pid st.projects).isSome || (getVal pid st.workspaces).isSome with
    | true => simp only [hex]; exact ⟨h1, h2, h3, h4, h5, h6, h7, h8⟩
    | false =>
      simp only [hex, Bool.false_eq_true, if_neg, Bool.cond_decide]
      refine ⟨h1, h2, keysOf_setVal_nodup _ _ h3, keysOf_setVal_nodup _ _ h4, h5, ?_, ?_, h8⟩
      · intro e he
        rcases List.mem_cons.1 he with heq | hmem
        · rw [heq]
        · exact h6 e ((mem_delVal).1 hmem).1
      · intro e he
        rcases List.mem_cons.1 he with heq | hmem
        · rw [heq]; exact keysOf_seedTree_nodup t.files
        · exact h7 e ((mem_delVal).1 hmem).1

theorem inv_writeFile (st : MgrState) (pid path content : String)
    (h : Inv st) : Inv (writeFile st pid path content).2 := by
  obtain ⟨h1, h2, h3, h4, h5, h6, h7, h8⟩ := h
  unfold writeFile
  cases hws : getVal pid st.workspaces with
  | none => exact ⟨h1, h2, h3, h4, h5, h6, h7, h8⟩
  | some ws =>
    cases hrp : resolvePath path with
    | none => exact ⟨h1, h2, h3, h4, h5, h6, h7, h8⟩
    | some comps =>
      refine ⟨h1, h2, h3, keysOf_setVal_nodup _ _ h4, h5, h6, ?_, h8⟩
      intro e he
      rcases List.mem_cons.1 he with heq | hmem
      · rw [heq]
        exact keysOf_setVal_nodup _ _ (h7 _ (mem_of_getVal_some hws))
      · exact h7 e ((mem_delVal).1 hmem).1

theorem inv_promoteRun (st : MgrState) (pid : String) (h : Inv st) :
    Inv (promoteRun st pid) := by
  obtain ⟨h1, h2, h3, h4, h5, h6, h7, h8⟩ := h
  unfold promoteRun
  cases hrun : getVal pid st.devServers with
  | none => exact ⟨h1, h2, h3, h4, h5, h6, h7, h8⟩
  | some run =>
    by_cases hst : run.status = DevStatus.starting
    · simp only [hst, if_pos]
      refine ⟨?_, keysOf_setVal_nodup _ _ h2, h3, h4, h5, h6, h7, h8⟩
      have hdec := runPorts_decomp h2 hrun
      have hnew : runPorts (setVal pid { run with status := DevStatus.running }
          st.devServers) = entryPorts (pid, { run with status := DevStatus.running })
          ++ runPorts (delVal pid st.devServers) := by
        rw [setVal, runPorts_cons]
      have hep : entryPorts (pid, { run with status := DevStatus.running })
          = entryPorts (pid, run) := by
        simp [entryPorts, isActive, hst]
      have hperm : List.Perm
          (runPorts (setVal pid { run with status := DevStatus.running } st.devServers)
            ++ st.freePorts)
          (runPorts st.devServers ++ st.freePorts) := by
        rw [hnew, hep]
        exact (hdec.symm).append_right _
      exact hperm.symm.nodup h1
    · simp only [hst, if_neg]
      exact ⟨h1, h2, h3, h4, h5, h6, h7, h8⟩

theorem perm_stop_shuffle {α : Type} (t d f : List α) :
    List.Perm ((t ++ d) ++ f) (d ++ (f ++ t)) := by
  rw [List.append_assoc]
  exact (perm_swap_blocks t d f).trans
    (List.Perm.append_left d (List.perm_append_comm))

theorem inv_stopDevServer (st : MgrState) (pid : String) (h : Inv st) :
    Inv (stopDevServer st pid).2 := by
  obtain ⟨h1, h2, h3, h4, h5, h6, h7, h8⟩ := h
  unfold stopDevServer
  cases hrun : getVal pid st.devServers with
  | none => exact ⟨h1, h2, h3, h4, h5, h6, h7, h8⟩
  | some run =>
    cases hact : isActive run.status with
    | false =>
      simp only [hact, Bool.false_eq_true, if_neg]
      exact ⟨h1, h2, h3, h4, h5, h6, h7, h8⟩
    | true =>
      simp only [hact, if_pos]
      refine ⟨?_, keysOf_delVal_nodup _ h2, h3, h4, h5, h6, h7, h8⟩
      have hdec := runPorts_decomp h2 hrun
      have hep : entryPorts (pid, run) = run.port.toList := by
        simp [entryPorts, hact]
      rw [hep] at hdec
      have hold : List.Perm (runPorts st.devServers ++ st.freePorts)
          ((run.port.toList ++ runPorts (delVal pid st.devServers)) ++ st.freePorts) :=
        hdec.append_right _
      have hsh := perm_stop_shuffle run.port.toList
        (runPorts (delVal pid st.devServers)) st.freePorts
      exact ((hold.trans hsh)).nodup h1

theorem inv_devCleanup (st : MgrState) (pid : String) (b : Bool) (h : Inv st) :
    Inv (devCleanup st pid b) := by
  obtain ⟨h1, h2, h3, h4, h5, h6, h7, h8⟩ := h
  unfold devCleanup
  cases hrun : getVal pid st.devServers with
  | none => exact ⟨h1, h2, h3, h4, h5, h6, h7, h8⟩
  | some run =>
    refine ⟨?_, keysOf_delVal_nodup _ h2, h3, h4, h5, h6, h7, h8⟩
    have hdec := runPorts_decomp h2 hrun
    have hep : entryPorts (pid, run)
        = (if isActive run.status then run.port.toList else []) := by
      cases hact : isActive run.status with
      | true => simp [entryPorts, hact]
      | false => simp [entryPorts, hact]
    rw [hep] at hdec
    have hold : List.Perm (runPorts st.devServers ++ st.freePorts)
        (((if isActive run.status then run.port.toList else [])
          ++ runPorts (delVal pid st.devServers)) ++ st.freePorts) :=
      hdec.append_right _
    have hsh := perm_stop_shuffle (if isActive run.status then run.port.toList else [])
      (runPorts (delVal pid st.devServers)) st.freePorts
    exact ((hold.trans hsh)).nodup h1

theorem inv_deleteProject (st : MgrState) (pid : String) (b : Bool) (h : Inv st) :
    Inv (deleteProject st pid b).2 := by
  unfold deleteProject
  cases hpr : getVal pid st.projects with
  | none => exact h
  | some proj =>
    obtain ⟨g1, g2, g3, g4, g5, g6, g7, g8⟩ := inv_devCleanup st pid b h
    refine ⟨g1, g2, keysOf_delVal_nodup _ g3, keysOf_delVal_nodup _ g4, g5, ?_, ?_, g8⟩
    · intro e he
      exact g6 e ((mem_delVal).1 he).1
    · intro e he
      exact g7 e ((mem_delVal).1 he).1

theorem inv_startFresh (st : MgrState) (pid : String) (proj : Project) (h : Inv st)
    (hno : ∀ run, getVal pid st.devServers = some run → isActive run.status = false) :
    Inv (startFresh st pid proj).2 := by
  obtain ⟨h1, h2, h3, h4, h5, h6, h7, h8⟩ := h
  unfold startFresh
  cases htpl : getVal proj.template templates with
  | none => exact ⟨h1, h2, h3, h4, h5, h6, h7, h8⟩
  | some t =>
    cases hfp : st.freePorts with
    | nil => exact ⟨h1, h2, h3, h4, h5, h6, h7, h8⟩
    | cons q rest =>
      refine ⟨?_, keysOf_setVal_nodup _ _ h2, h3, h4, h5, h6, h7, h8⟩
      have hnew : runPorts (setVal pid ⟨pid, DevStatus.starting, some q, st.nextProc, []⟩
          st.devServers) = q :: runPorts (delVal pid st.devServers) := by
        rw [setVal, runPorts_cons]
        simp [entryPorts, isActive]
      have hdel : List.Perm (runPorts st.devServers)
          (runPorts (delVal pid st.devServers)) := by
        cases hrun : getVal pid st.devServers with
        | none =>
          rw [delVal_eq_self_of_not_mem ((getVal_eq_none_iff _ _).1 hrun)]
        | some oldr =>
          have hact := hno oldr hrun
          have hdec := runPorts_decomp h2 hrun
          have hep : entryPorts (pid, oldr) = [] := by
            simp [entryPorts, hact]
          rw [hep] at hdec
          simpa using hdec
      rw [hfp] at h1
      rw [hnew]
      have hp1 : List.Perm (runPorts st.devServers ++ (q :: rest))
          (q :: (runPorts st.devServers ++ rest)) := List.perm_middle
      have hp2 : List.Perm (q :: (runPorts st.devServers ++ rest))
          (q :: (runPorts (delVal pid st.devServers) ++ rest)) :=
        (hdel.append_right rest).cons q
      have hres := (hp1.trans hp2).nodup h1
      simpa using hres

theorem inv_startDevServer (st : MgrState) (pid : String) (h : Inv st) :
    Inv (startDevServer st pid).2 := by
  unfold startDevServer
  cases hpr : getVal pid st.projects with
  | none => exact h
  | some proj =>
    cases hrun : getVal pid st.devServers with
    | none =>
      exact inv_startFresh st pid proj h (fun r hr => by rw [hrun] at hr; cases hr)
    | some run =>
      cases hact : isActive run.status with
      | true => simp only [hact, if_pos]; exact h
      | false =>
        simp only [hact, Bool.false_eq_true, if_neg]
        refine inv_startFresh st pid proj h (fun r hr => ?_)
        rw [hrun] at hr
        cases hr
        exact hact

theorem runPorts_poll_perm (exits : List (Nat × Int)) (l : List (String × DevServerRun)) :
    List.Perm (runPorts l)
      (runPorts (l.map (fun e => (e.1, pollRun exits e.2)))
        ++ l.filterMap (fun e => freedRun exits e.2)) := by
  induction l with
  | nil => exact List.Perm.refl _
  | cons e t ih =>
    rw [List.map_cons, runPorts_cons, runPorts_cons, List.filterMap_cons]
    cases hget : getVal e.2.proc exits with
    | none =>
      have hpoll : pollRun exits e.2 = e.2 := by simp [pollRun, hget]
      have hfree : freedRun exits e.2 = none := by simp [freedRun, hget]
      rw [hpoll, hfree, List.append_assoc]
      exact List.Perm.append_left (entryPorts (e.1, e.2)) ih
    | some code =>
      by_cases hst : e.2.status = DevStatus.running
      · by_cases hcode : code = 0
        · have hpoll : pollRun exits e.2 = e.2 := by simp [pollRun, hget, hst, hcode]
          have hfree : freedRun exits e.2 = none := by simp [freedRun, hget, hst, hcode]
          rw [hpoll, hfree, List.append_assoc]
          exact List.Perm.append_left (entryPorts (e.1, e.2)) ih
        · have hpoll : pollRun exits e.2 = crashRun e.2 code := by
            simp [pollRun, hget, hst, hcode]
          have hfree : freedRun exits e.2 = e.2.port := by
            simp [freedRun, hget, hst, hcode]
          rw [hpoll, hfree]
          have hcrash : entryPorts (e.1, crashRun e.2 code) = [] := by
            simp [entryPorts, crashRun, isActive]
          rw [hcrash]
          have hactive : entryPorts (e.1, e.2) = e.2.port.toList := by
            simp [entryPorts, isActive, hst]
          rw [hactive]
          cases hport : e.2.port with
          | none =>
            simpa using ih
          | some q =>
            have hmid : List.Perm
                (runPorts (t.map (fun e => (e.1, pollRun exits e.2)))
                  ++ q :: t.filterMap (fun e => freedRun exits e.2))
                (q :: (runPorts (t.map (fun e => (e.1, pollRun exits e.2)))
                  ++ t.filterMap (fun e => freedRun exits e.2))) := List.perm_middle
            have hstep : List.Perm (q :: runPorts t)
                (q :: (runPorts (t.map (fun e => (e.1, pollRun exits e.2)))
                  ++ t.filterMap (fun e => freedRun exits e.2))) := ih.cons q
            simpa using hstep.trans hmid.symm
      · have hpoll : pollRun exits e.2 = e.2 := by simp [pollRun, hget, hst]
        have hfree : freedRun exits e.2 = none := by simp [freedRun, hget, hst]
        rw [hpoll, hfree, List.append_assoc]
        exact List.Perm.append_left (entryPorts (e.1, e.2)) ih

theorem keysOf_map_pollRun (exits : List (Nat × Int)) (l : List (String × DevServerRun)) :
    keysOf (l.map (fun e => (e.1, pollRun exits e.2))) = keysOf l := by
  induction l with
  | nil => rfl
  | cons e t ih =>
    show e.1 :: keysOf (t.map (fun e => (e.1, pollRun exits e.2))) = e.1 :: keysOf t
    rw [ih]

theorem inv_supervisorPoll (st : MgrState) (exits : List (Nat × Int)) (h : Inv st) :
    Inv (supervisorPoll st exits) := by
  obtain ⟨h1, h2, h3, h4, h5, h6, h7, h8⟩ := h
  unfold supervisorPoll
  refine ⟨?_, ?_, h3, h4, h5, h6, h7, h8⟩
  · have hp := runPorts_poll_perm exits st.devServers
    have hold : List.Perm (runPorts st.devServers ++ st.freePorts)
        ((runPorts (st.devServers.map (fun e => (e.1, pollRun exits e.2)))
          ++ st.devServers.filterMap (fun e => freedRun exits e.2)) ++ st.freePorts) :=
      hp.append_right _
    have hsh : List.Perm
        ((runPorts (st.devServers.map (fun e => (e.1, pollRun exits e.2)))
          ++ st.devServers.filterMap (fun e => freedRun exits e.2)) ++ st.freePorts)
        (runPorts (st.devServers.map (fun e => (e.1, pollRun exits e.2)))
          ++ (st.freePorts ++ st.devServers.filterMap (fun e => freedRun exits e.2))) := by
      rw [List.append_assoc]
      exact List.Perm.append_left _ (List.perm_append_comm)
    exact ((hold.trans hsh)).nodup h1
  · rw [keysOf_map_pollRun]
    exact h2

theorem inv_deploy (st : MgrState) (pid env : String) (h : Inv st) :
    Inv (deploy st pid env).2 := by
  obtain ⟨h1, h2, h3, h4, h5, h6, h7, h8⟩ := h
  unfold deploy
  cases hpr : getVal pid st.projects with
  | none => exact ⟨h1, h2, h3, h4, h5, h6, h7, h8⟩
  | some proj =>
    cases hws : getVal pid st.workspaces with
    | none => exact ⟨h1, h2, h3, h4, h5, h6, h7, h8⟩
    | some ws =>
      refine ⟨h1, h2, h3, h4, keysOf_setVal_nodup _ _ h5, h6, h7, ?_⟩
      intro e he
      rcases List.mem_cons.1 he with heq | hmem
      · rw [heq]; exact Nat.lt_succ_self _
      · exact Nat.lt_succ_of_lt (h8 e ((mem_delVal).1 hmem).1)

theorem inv_updateDeployment (st : MgrState) (did : Nat) (s : DeployStatus)
    (logLine url : Option String) (h : Inv st) :
    Inv (updateDeployment st did s logLine url).2 := by
  obtain ⟨h1, h2, h3, h4, h5, h6, h7, h8⟩ := h
  unfold updateDeployment
  cases hr : getVal did st.deployments with
  | none => exact ⟨h1, h2, h3, h4, h5, h6, h7, h8⟩
  | some r =>
    cases hfa : forwardAllowed r.status s with
    | false =>
      simp only [hfa, Bool.false_eq_true, if_neg]
      exact ⟨h1, h2, h3, h4, h5, h6, h7, h8⟩
    | true =>
      simp only [hfa, if_pos]
      refine ⟨h1, h2, h3, h4, keysOf_setVal_nodup _ _ h5, h6, h7, ?_⟩
      intro e he
      rcases List.mem_cons.1 he with heq | hmem
      · rw [heq]
        exact h8 (did, r) (mem_of_getVal_some hr)
      · exact h8 e ((mem_delVal).1 hmem).1

/-- Preservation of the global invariant by every operation of the
orchestrator. -/
theorem inv_applyOp (op : Op) (st : MgrState) (h : Inv st) : Inv (applyOp op st) := by
  cases op with
  | createProject pid pname tpl descr => exact inv_createProject st pid pname tpl descr h
  | deleteProject pid termFails => exact inv_deleteProject st pid termFails h
  | writeFile pid path content => exact inv_writeFile st pid path content h
  | startDevServer pid => exact inv_startDevServer st pid h
  | stopDevServer pid => exact inv_stopDevServer st pid h
  | promoteRun pid => exact inv_promoteRun st pid h
  | supervisorPoll exits => exact inv_supervisorPoll st exits h
  | deploy pid env => exact inv_deploy st pid env h
  | updateDeployment did s logLine url => exact inv_updateDeployment st did s logLine url h

/-! ## Behavioural lemmas -/

theorem no_port_sharing {st : MgrState} (h : Inv st) {p1 p2 : String}
    {r1 r2 : DevServerRun} {q : Nat} (hne : p1 ≠ p2)
    (hg1 : getVal p1 st.devServers = some r1) (hg2 : getVal p2 st.devServers = some r2)
    (ha1 : isActive r1.status = true) (ha2 : isActive r2.status = true)
    (hq1 : r1.port = some q) (hq2 : r2.port = some q) : False := by
  have hp := h.1
  have hk := h.2.1
  have hnd : (runPorts st.devServers).Nodup := (List.nodup_append.1 hp).1
  have hd1 := runPorts_decomp hk hg1
  have hkd : (keysOf (delVal p1 st.devServers)).Nodup := keysOf_delVal_nodup _ hk
  have hg2d : getVal p2 (delVal p1 st.devServers) = some r2 := by
    rw [getVal_delVal_ne _ hne]
    exact hg2
  have hd2 := runPorts_decomp hkd hg2d
  have he1 : entryPorts (p1, r1) = [q] := by simp [entryPorts, ha1, hq1]
  have he2 : entryPorts (p2, r2) = [q] := by simp [entryPorts, ha2, hq2]
  rw [he1] at hd1
  rw [he2] at hd2
  have hcomb : List.Perm (runPorts st.devServers)
      ([q] ++ ([q] ++ runPorts (delVal p2 (delVal p1 st.devServers)))) :=
    hd1.trans (List.Perm.append_left [q] hd2)
  have hbad := hcomb.nodup hnd
  simp at hbad

theorem stop_port_released {st : MgrState} {pid : String} {run : DevServerRun} {q : Nat}
    (hrun : getVal pid st.devServers = some run) (hact : isActive run.status = true)
    (hq : run.port = some q) : q ∈ (stopDevServer st pid).2.freePorts := by
  unfold stopDevServer
  rw [hrun]
  simp [hact, hq]

theorem devCleanup_port_released {st : MgrState} {pid : String} {run : DevServerRun}
    {q : Nat} (b : Bool)
    (hrun : getVal pid st.devServers = some run) (hact : isActive run.status = true)
    (hq : run.port = some q) : q ∈ (devCleanup st pid b).freePorts := by
  unfold devCleanup
  rw [hrun]
  simp [hact, hq]

theorem delete_port_released {st : MgrState} {pid : String} {run : DevServerRun}
    {q : Nat} {proj : Project} (b : Bool)
    (hpr : getVal pid st.projects = some proj)
    (hrun : getVal pid st.devServers = some run) (hact : isActive run.status = true)
    (hq : run.port = some q) : q ∈ (deleteProject st pid b).2.freePorts := by
  unfold deleteProject
  rw [hpr]
  exact devCleanup_port_released b hrun hact hq

theorem poll_port_released {st : MgrState} {exits : List (Nat × Int)} {pid : String}
    {run : DevServerRun} {q : Nat} {code : Int}
    (hrun : getVal pid st.devServers = some run)
    (hst : run.status = DevStatus.running)
    (hexit : getVal run.proc exits = some code) (hcode : code ≠ 0)
    (hq : run.port = some q) : q ∈ (supervisorPoll st exits).freePorts := by
  unfold supervisorPoll
  simp only [List.mem_append]
  refine Or.inr ?_
  rw [List.mem_filterMap]
  refine ⟨(pid, run), mem_of_getVal_some hrun, ?_⟩
  simp [freedRun, hexit, hst, hcode, hq]

theorem start_takes_head {st : MgrState} {pid : String} {proj : Project} {t : Template}
    {q : Nat} {rest : List Nat}
    (hfp : st.freePorts = q :: rest)
    (hpr : getVal pid st.projects = some proj)
    (ht : getVal proj.template templates = some t)
    (hrun : ∀ r, getVal pid st.devServers = some r → isActive r.status = false) :
    (startDevServer st pid).1
      = Except.ok ⟨pid, DevStatus.starting, some q, st.nextProc, []⟩ := by
  unfold startDevServer
  rw [hpr]
  have hfresh : (startFresh st pid proj).1
      = Except.ok ⟨pid, DevStatus.starting, some q, st.nextProc, []⟩ := by
    unfold startFresh
    rw [ht, hfp]
  cases hget : getVal pid st.devServers with
  | none => exact hfresh
  | some r =>
    have hact := hrun r hget
    simp only [hact, Bool.false_eq_true, if_neg]
    exact hfresh

theorem deployments_createProject (st : MgrState) (a b c d : String) :
    (createProject st a b c d).2.deployments = st.deployments := by
  unfold createProject
  cases h1 : getVal c templates with
  | none => rfl
  | some t =>
    cases h2 : (getVal a st.projects).isSome || (getVal a st.workspaces).isSome with
    | true => simp only [h2, if_pos]
    | false =>
      simp only [h2, Bool.false_eq_true, if_neg]
      rfl

theorem deployments_writeFile (st : MgrState) (a b c : String) :
    (writeFile st a b c).2.deployments = st.deployments := by
  unfold writeFile
  cases h1 : getVal a st.workspaces with
  | none => rfl
  | some ws =>
    cases h2 : resolvePath b with
    | none => rfl
    | some comps => rfl

theorem deployments_startFresh (st : MgrState) (a : String) (proj : Project) :
    (startFresh st a proj).2.deployments = st.deployments := by
  unfold startFresh
  cases h1 : getVal proj.template templates with
  | none => rfl
  | some t =>
    cases h2 : st.freePorts with
    | nil => rfl
    | cons q rest => rfl

theorem deployments_startDevServer (st : MgrState) (a : String) :
    (startDevServer st a).2.deployments = st.deployments := by
  unfold startDevServer
  cases h1 : getVal a st.projects with
  | none => rfl
  | some proj =>
    cases h2 : getVal a st.devServers with
    | none => exact deployments_startFresh st a proj
    | some run =>
      cases h3 : isActive run.status with
      | true => simp only [h3, if_pos]
      | false =>
        simp only [h3, Bool.false_eq_true, if_neg]
        exact deployments_startFresh st a proj

theorem deployments_stopDevServer (st : MgrState) (a : String) :
    (stopDevServer st a).2.deployments = st.deployments := by
  unfold stopDevServer
  cases h1 : getVal a st.devServers with
  | none => rfl
  | some run =>
    cases h2 : isActive run.status with
    | true => simp only [h2, if_pos]
    | false =>
      simp only [h2, Bool.false_eq_true, if_neg]
      rfl

theorem deployments_promoteRun (st : MgrState) (a : String) :
    (promoteRun st a).deployments = st.deployments := by
  unfold promoteRun
  cases h1 : getVal a st.devServers with
  | none => rfl
  | some run =>
    by_cases h2 : run.status = DevStatus.starting
    · simp only [h2, if_pos]
    · simp only [h2, if_neg]
      rfl

theorem deployments_devCleanup (st : MgrState) (a : String) (b : Bool) :
    (devCleanup st a b).deployments = st.deployments := by
  unfold devCleanup
  cases h1 : getVal a st.devServers with
  | none => rfl
  | some run => rfl

theorem deployments_deleteProject (st : MgrState) (a : String) (b : Bool) :
    (deleteProject st a b).2.deployments = st.deployments := by
  unfold deleteProject
  cases h1 : getVal a st.projects with
  | none => rfl
  | some proj => exact deployments_devCleanup st a b

theorem deployments_supervisorPoll (st : MgrState) (exits : List (Nat × Int)) :
    (supervisorPoll st exits).deployments = st.deployments := rfl

theorem forwardAllowed_rank {a b : DeployStatus} (h : forwardAllowed a b = true) :
    statusRank a < statusRank b := by
  cases a <;> cases b <;> revert h <;> decide

theorem forwardAllowed_of_terminal {a : DeployStatus} (h : isTerminal a = true)
    (b : DeployStatus) : forwardAllowed a b = false := by
  cases a <;> cases b <;> revert h <;> decide

theorem deployments_unchanged_non_update (op : Op) (st : MgrState) (h : Inv st)
    {did : Nat} {r : DeploymentRecord} (hr : getVal did st.deployments = some r)
    (hop : ∀ s lu uu, op ≠ Op.updateDeployment did s lu uu) :
    getVal did (applyOp op st).deployments = some r := by
  cases op with
  | createProject a b c d =>
    show getVal did (createProject st a b c d).2.deployments = some r
    rw [deployments_createProject]
    exact hr
  | deleteProject a b =>
    show getVal did (deleteProject st a b).2.deployments = some r
    rw [deployments_deleteProject]
    exact hr
  | writeFile a b c =>
    show getVal did (writeFile st a b c).2.deployments = some r
    rw [deployments_writeFile]
    exact hr
  | startDevServer a =>
    show getVal did (startDevServer st a).2.deployments = some r
    rw [deployments_startDevServer]
    exact hr
  | stopDevServer a =>
    show getVal did (stopDevServer st a).2.deployments = some r
    rw [deployments_stopDevServer]
    exact hr
  | promoteRun a =>
    show getVal did (promoteRun st a).deployments = some r
    rw [deployments_promoteRun]
    exact hr
  | supervisorPoll exits =>
    show getVal did (supervisorPoll st exits).deployments = some r
    rw [deployments_supervisorPoll]
    exact hr
  | deploy a b =>
    show getVal did (deploy st a b).2.deployments = some r
    have hlt : did < st.nextDeployId := h.2.2.2.2.2.2.2 (did, r) (mem_of_getVal_some hr)
    unfold deploy
    cases h1 : getVal a st.projects with
    | none => exact hr
    | some proj =>
      cases h2 : getVal a st.workspaces with
      | none => exact hr
      | some ws =>
        show getVal did (setVal st.nextDeployId _ st.deployments) = some r
        have hneq : st.nextDeployId ≠ did := by
          intro hh
          rw [hh] at hlt
          exact Nat.lt_irrefl did hlt
        rw [getVal_setVal_ne _ _ hneq]
        exact hr
  | updateDeployment did2 s lu uu =>
    have hne : did2 ≠ did := fun hh => hop s lu uu (by rw [hh])
    show getVal did (updateDeployment st did2 s lu uu).2.deployments = some r
    unfold updateDeployment
    cases h1 : getVal did2 st.deployments with
    | none => exact hr
    | some r2 =>
      cases h2 : forwardAllowed r2.status s with
      | false =>
        simp only [h2, Bool.false_eq_true, if_neg]
        exact hr
      | true =>
        simp only [h2, if_pos]
        show getVal did (setVal did2 _ st.deployments) = some r
        rw [getVal_setVal_ne _ _ hne]
        exact hr

theorem deployments_terminal_immutable (op : Op) (st : MgrState) (h : Inv st)
    {did : Nat} {r : DeploymentRecord} (hr : getVal did st.deployments = some r)
    (hterm : isTerminal r.status = true) :
    getVal did (applyOp op st).deployments = some r := by
  cases hcase : op with
  | updateDeployment did2 s lu uu =>
    by_cases hdd : did2 = did
    · subst hdd
      show getVal did2 (updateDeployment st did2 s lu uu).2.deployments = some r
      unfold updateDeployment
      rw [hr]
      simp only [forwardAllowed_of_terminal hterm s, Bool.false_eq_true, if_neg]
      exact hr
    · exact deployments_unchanged_non_update _ st h hr
        (fun s2 lu2 uu2 heq => hdd (by cases heq; rfl))
  | createProject a b c d =>
    exact deployments_unchanged_non_update _ st h hr (fun s2 lu2 uu2 heq => by cases heq)
  | deleteProject a b =>
    exact deployments_unchanged_non_update _ st h hr (fun s2 lu2 uu2 heq => by cases heq)
  | writeFile a b c =>
    exact deployments_unchanged_non_update _ st h hr (fun s2 lu2 uu2 heq => by cases heq)
  | startDevServer a =>
    exact deployments_unchanged_non_update _ st h hr (fun s2 lu2 uu2 heq => by cases heq)
  | stopDevServer a =>
    exact deployments_unchanged_non_update _ st h hr (fun s2 lu2 uu2 heq => by cases heq)
  | promoteRun a =>
    exact deployments_unchanged_non_update _ st h hr (fun s2 lu2 uu2 heq => by cases heq)
  | supervisorPoll exits =>
    exact deployments_unchanged_non_update _ st h hr (fun s2 lu2 uu2 heq => by cases heq)
  | deploy a b =>
    exact deployments_unchanged_non_update _ st h hr (fun s2 lu2 uu2 heq => by cases heq)

theorem getVal_foldl_setVal_not_mem {κ α : Type} [DecidableEq κ] {q : κ}
    (entries : List (κ × α)) :
    ∀ acc : List (κ × α), q ∉ keysOf entries →
      getVal q (entries.foldl (fun a f => setVal f.1 f.2 a) acc) = getVal q acc := by
  induction entries with
  | nil => intro acc h; rfl
  | cons f rest ih =>
    intro acc h
    simp only [keysOf, List.map_cons, List.mem_cons] at h
    push_neg at h
    rw [List.foldl_cons, ih _ ?hrest]
    case hrest =>
      intro habs
      exact h.2 habs
    exact getVal_setVal_ne _ _ (fun hh => h.1 hh.symm)

theorem getVal_foldl_setVal {κ α : Type} [DecidableEq κ] (q : κ)
    (entries : List (κ × α)) :
    ∀ acc : List (κ × α), (keysOf entries).Nodup →
      getVal q (entries.foldl (fun a f => setVal f.1 f.2 a) acc)
        = (getVal q entries).or (getVal q acc) := by
  induction entries with
  | nil =>
    intro acc h
    show getVal q acc = (none : Option α).or (getVal q acc)
    rfl
  | cons f rest ih =>
    intro acc hnd
    cases f with
    | mk k0 v0 =>
      simp only [keysOf, List.map_cons, List.nodup_cons] at hnd
      rw [List.foldl_cons]
      by_cases hq : k0 = q
      · subst hq
        have hnm : k0 ∉ keysOf rest := hnd.1
        rw [getVal_foldl_setVal_not_mem rest _ hnm]
        rw [getVal_setVal_self k0 v0 acc]
        rw [getVal_cons, if_pos rfl]
        rfl
      · rw [ih _ hnd.2]
        rw [getVal_setVal_ne _ _ hq]
        rw [getVal_cons, if_neg hq]

/-- Round trip of an exported archive: extraction reproduces exactly the
workspace's lookup function. -/
theorem extract_export_getVal (ws : FileTree) (hnd : (keysOf ws).Nodup)
    (q : List String) : getVal q (extractTree (exportTree ws)) = getVal q ws := by
  have hmap : extractTree (exportTree ws)
      = ws.foldl (fun a f => setVal f.1 f.2 a) [] := by
    unfold extractTree exportTree
    rw [List.foldl_map]
  rw [hmap, getVal_foldl_setVal q ws [] hnd]
  cases h : getVal q ws with
  | none => rfl
  | some v => rfl

theorem mem_drop_append {α : Type} (xs : List α) (a : α) :
    ∀ k : Nat, k ≤ xs.length → a ∈ (xs ++ [a]).drop k := by
  induction xs with
  | nil =>
    intro k hk
    have hz : k = 0 := Nat.le_zero.1 hk
    subst hz
    simp
  | cons x xs ih =>
    intro k hk
    cases k with
    | zero => simp
    | succ k2 =>
      simp only [List.cons_append, List.drop_succ_cons]
      exact ih k2 (Nat.le_of_succ_le_succ hk)

theorem mem_pushLog (logs : List String) (line : String) :
    line ∈ pushLog logs line := by
  unfold pushLog
  apply mem_drop_append
  simp only [List.length_append, List.length_cons, List.length_nil, LOG_CAP]
  omega

theorem getVal_map_snd {κ α β : Type} [DecidableEq κ] (f : α → β) (k : κ)
    (l : List (κ × α)) :
    getVal k (l.map (fun e => (e.1, f e.2))) = (getVal k l).map f := by
  induction l with
  | nil => rfl
  | cons e rest ih =>
    cases e with
    | mk k3 v3 =>
      by_cases he : k3 = k
      · simp [getVal_cons, he]
      · simp [getVal_cons, he, ih]

theorem start_rejects_active {st : MgrState} {pid : String} {proj : Project}
    {run : DevServerRun}
    (hpr : getVal pid st.projects = some proj)
    (hrun : getVal pid st.devServers = some run)
    (hact : isActive run.status = true) :
    startDevServer st pid = (Except.error Err.AlreadyRunning, st) := by
  unfold startDevServer
  rw [hpr, hrun]
  simp [hact]

theorem writeFile_rejects_escape {st : MgrState} {pid path content : String}
    {ws : FileTree}
    (hws : getVal pid st.workspaces = some ws)
    (hesc : escapesRoot path = true) :
    writeFile st pid path content = (Except.error Err.InvalidPath, st) := by
  unfold writeFile
  rw [hws, resolvePath_eq_none_of_escapes hesc]

theorem projects_devCleanup (st : MgrState) (pid : String) (b : Bool) :
    (devCleanup st pid b).projects = st.projects := by
  unfold devCleanup
  cases h : getVal pid st.devServers with
  | none => rfl
  | some run => rfl

theorem workspaces_devCleanup (st : MgrState) (pid : String) (b : Bool) :
    (devCleanup st pid b).workspaces = st.workspaces := by
  unfold devCleanup
  cases h : getVal pid st.devServers with
  | none => rfl
  | some run => rfl

theorem devServers_devCleanup_none (st : MgrState) (pid : String) (b : Bool) :
    getVal pid (devCleanup st pid b).devServers = none := by
  unfold devCleanup
  cases h : getVal pid st.devServers with
  | none => exact h
  | some run => exact getVal_delVal_self pid st.devServers

theorem eventLog_devCleanup_logged {st : MgrState} {pid : String} {run : DevServerRun}
    (hrun : getVal pid st.devServers = some run) :
    ("failed to stop dev server for " ++ pid) ∈ (devCleanup st pid true).eventLog := by
  unfold devCleanup
  rw [hrun]
  simp

theorem stop_not_running {st : MgrState} {pid : String}
    (h : getVal pid st.devServers = none ∨
         ∃ r, getVal pid st.devServers = some r ∧ isActive r.status = false) :
    stopDevServer st pid = (Except.error Err.NotRunning, st) := by
  unfold stopDevServer
  rcases h with h1 | ⟨r, h1, h2⟩
  · rw [h1]
  · rw [h1]
    simp [h2]

theorem poll_crash_run {st : MgrState} {exits : List (Nat × Int)} {pid : String}
    {run : DevServerRun} {code : Int}
    (hrun : getVal pid st.devServers = some run)
    (hst : run.status = DevStatus.running)
    (hexit : getVal run.proc exits = some code)
    (hcode : code ≠ 0) :
    getVal pid (supervisorPoll st exits).devServers = some (crashRun run code) := by
  unfold supervisorPoll
  show getVal pid (st.devServers.map (fun e => (e.1, pollRun exits e.2)))
    = some (crashRun run code)
  rw [getVal_map_snd (pollRun exits) pid st.devServers, hrun]
  have hpoll : pollRun exits run = crashRun run code := by
    simp [pollRun, hexit, hst, hcode]
  show some (pollRun exits run) = some (crashRun run code)
  rw [hpoll]

theorem write_read_roundtrip {st : MgrState} {pid : String} {ws : FileTree}
    (hws : getVal pid st.workspaces = some ws) :
    (writeFile st pid "a.txt" "hello").1 = Except.ok ()
    ∧ readFile (writeFile st pid "a.txt" "hello").2 pid "a.txt"
        = Except.ok "hello" := by
  have hrp : resolvePath "a.txt" = some ["a.txt"] := by decide
  unfold writeFile
  rw [hws, hrp]
  refine ⟨rfl, ?_⟩
  show readFile
    { st with workspaces := setVal pid (setVal ["a.txt"] "hello" ws) st.workspaces }
    pid "a.txt" = Except.ok "hello"
  unfold readFile
  show (match getVal pid (setVal pid (setVal ["a.txt"] "hello" ws) st.workspaces) with
    | none => Except.error Err.NotFound
    | some ws2 =>
      match resolvePath "a.txt" with
      | none => Except.error Err.NotFound
      | some comps =>
        match getVal comps ws2 with
        | none => Except.error Err.NotFound
        | some content => Except.ok content) = Except.ok "hello"
  rw [getVal_setVal_self, hrp]
  show (match getVal ["a.txt"] (setVal ["a.txt"] "hello" ws) with
    | none => Except.error Err.NotFound
    | some content => Except.ok content) = Except.ok "hello"
  rw [getVal_setVal_self]

theorem fst_deleteProject {st : MgrState} {pid : String} {proj : Project} (b : Bool)
    (hpr : getVal pid st.projects = some proj) :
    (deleteProject st pid b).1 = Except.ok () := by
  unfold deleteProject
  rw [hpr]

theorem projects_deleteProject {st : MgrState} {pid : String} {proj : Project} (b : Bool)
    (hpr : getVal pid st.projects = some proj) :
    (deleteProject st pid b).2.projects = delVal pid st.projects := by
  unfold deleteProject
  rw [hpr]
  show delVal pid (devCleanup st pid b).projects = delVal pid st.projects
  rw [projects_devCleanup]

theorem workspaces_deleteProject {st : MgrState} {pid : String} {proj : Project} (b : Bool)
    (hpr : getVal pid st.projects = some proj) :
    (deleteProject st pid b).2.workspaces = delVal pid st.workspaces := by
  unfold deleteProject
  rw [hpr]
  show delVal pid (devCleanup st pid b).workspaces = delVal pid st.workspaces
  rw [workspaces_devCleanup]

theorem devServers_deleteProject {st : MgrState} {pid : String} {proj : Project} (b : Bool)
    (hpr : getVal pid st.projects = some proj) :
    (deleteProject st pid b).2.devServers = (devCleanup st pid b).devServers := by
  unfold deleteProject
  rw [hpr]

theorem eventLog_deleteProject {st : MgrState} {pid : String} {proj : Project} (b : Bool)
    (hpr : getVal pid st.projects = some proj) :
    (deleteProject st pid b).2.eventLog = (devCleanup st pid b).eventLog := by
  unfold deleteProject
  rw [hpr]

theorem get_secret_eq_nil {b : SecretsBackend} {nm : String}
    (h : RetrievalFails b nm) : get_secret b nm = [] := by
  unfold RetrievalFails at h
  unfold get_secret
  cases h1 : b.getSecretValue nm with
  | error e => rfl
  | ok resp =>
    simp only [h1] at h
    cases h2 : getVal "SecretString" resp with
    | none => simp [h2]
    | some raw =>
      simp only [h2] at h
      cases h3 : b.jsonLoads raw with
      | error e => simp [h2, h3]
      | ok d =>
        simp only [h3] at h

/-! ## Claim theorems -/

/-- C1: port allocation is injective over live dev-server runs. Under the
global invariant - which every operation of the orchestrator preserves, so
it holds at any time - no two simultaneously active (starting or running)
runs hold the same port; on every exit path of a run (StopDevServer, a
supervisor-detected crash, or project deletion) its port lands back in the
shared free pool; and a Start on any project allocates from the head of
that pool, so a returned port becomes available to a subsequent Start. -/
theorem port_allocation_injective (st : MgrState) (h : Inv st) :
    (∀ p1 p2 r1 r2 q, p1 ≠ p2 →
        getVal p1 st.devServers = some r1 → getVal p2 st.devServers = some r2 →
        isActive r1.status = true → isActive r2.status = true →
        r1.port = some q → r2.port ≠ some q)
    ∧ (∀ op, Inv (applyOp op st))
    ∧ (∀ pid run q, getVal pid st.devServers = some run →
        isActive run.status = true → run.port = some q →
          q ∈ (stopDevServer st pid).2.freePorts
          ∧ (∀ b proj, getVal pid st.projects = some proj →
              q ∈ (deleteProject st pid b).2.freePorts)
          ∧ (∀ exits code, run.status = DevStatus.running →
              getVal run.proc exits = some code → code ≠ 0 →
              q ∈ (supervisorPoll st exits).freePorts))
    ∧ (∀ pid proj t q rest, st.freePorts = q :: rest →
        getVal pid st.projects = some proj →
        getVal proj.template templates = some t →
        (∀ r, getVal pid st.devServers = some r → isActive r.status = false) →
        (startDevServer st pid).1
          = Except.ok ⟨pid, DevStatus.starting, some q, st.nextProc, []⟩) := by
  refine ⟨?_, ?_, ?_, ?_⟩
  · intro p1 p2 r1 r2 q hne hg1 hg2 ha1 ha2 hq1 hq2
    exact no_port_sharing h hne hg1 hg2 ha1 ha2 hq1 hq2
  · intro op
    exact inv_applyOp op st h
  · intro pid run q hrun hact hq
    exact ⟨stop_port_released hrun hact hq,
      fun b proj hpr => delete_port_released b hpr hrun hact hq,
      fun exits code hst hexit hcode => poll_port_released hrun hst hexit hcode hq⟩
  · intro pid proj t q rest hfp hpr ht hrun2
    exact start_takes_head hfp hpr ht hrun2

/-- Witness for C1 at the concrete example state: the invariant holds and
stopping the running server of project p1 returns port 3001 to the pool. -/
theorem port_allocation_injective_witness :
    Inv exSt ∧ 3001 ∈ (stopDevServer exSt "p1").2.freePorts :=
  ⟨by decide,
    ((port_allocation_injective exSt (by decide)).2.2.1 "p1" exRun1 3001
      (by decide) (by decide) (by decide)).1⟩

/-- C2: a second StartDevServer on a project whose run is in status
starting or running fails with AlreadyRunning, and the failed call leaves
the whole state - in particular the first run's status, port, process
handle and logs - unchanged. -/
theorem second_start_already_running (st : MgrState) (pid : String) (proj : Project)
    (run : DevServerRun)
    (hpr : getVal pid st.projects = some proj)
    (hrun : getVal pid st.devServers = some run)
    (hact : isActive run.status = true) :
    startDevServer st pid = (Except.error Err.AlreadyRunning, st)
    ∧ getVal pid (startDevServer st pid).2.devServers = some run := by
  have hmain := start_rejects_active hpr hrun hact
  refine ⟨hmain, ?_⟩
  rw [hmain]
  exact hrun

/-- Witness for C2 at the concrete example state: p1 has a running server,
and a second Start on p1 fails with AlreadyRunning leaving the state as is. -/
theorem second_start_already_running_witness :
    getVal "p1" exSt.devServers = some exRun1
    ∧ startDevServer exSt "p1" = (Except.error Err.AlreadyRunning, exSt) :=
  ⟨by decide,
    (second_start_already_running exSt "p1" exProj1 exRun1
      (by decide) (by decide) (by decide)).1⟩

/-- C3: WriteFile on any path that resolves outside the project root fails
with InvalidPath and leaves the whole state, in particular the project's
workspace file tree, exactly as it was - no file created, none modified. -/
theorem writeFile_traversal_rejected (st : MgrState) (pid path content : String)
    (ws : FileTree)
    (hws : getVal pid st.workspaces = some ws)
    (hesc : escapesRoot path = true) :
    writeFile st pid path content = (Except.error Err.InvalidPath, st)
    ∧ getVal pid (writeFile st pid path content).2.workspaces = some ws := by
  have hmain := @writeFile_rejects_escape st pid path content ws hws hesc
  refine ⟨hmain, ?_⟩
  rw [hmain]
  exact hws

/-- Witness for C3 at the concrete example state with the path
"../etc/passwd", which resolves outside the project root. -/
theorem writeFile_traversal_rejected_witness :
    escapesRoot "../etc/passwd" = true
    ∧ writeFile exSt "p1" "../etc/passwd" "x" = (Except.error Err.InvalidPath, exSt) :=
  ⟨by decide,
    (writeFile_traversal_rejected exSt "p1" "../etc/passwd" "x"
      [(["main.py"], "print(1)\n")] (by decide) (by decide)).1⟩

/-- C4: DeleteProject on an existing project stops any dev server first
(best-effort: for either terminate outcome b the call still succeeds, and a
failed terminate is recorded in the event log), then destroys the
workspace, then removes the Project record: afterwards the project is
absent from ListProjects, its workspace and run registry entries are gone,
and a live run's port has returned to the pool. -/
theorem deleteProject_removes_project (st : MgrState) (pid : String) (proj : Project)
    (b : Bool) (h : Inv st) (hpr : getVal pid st.projects = some proj) :
    (deleteProject st pid b).1 = Except.ok ()
    ∧ (∀ pr ∈ listProjects (deleteProject st pid b).2, pr.id ≠ pid)
    ∧ getVal pid (deleteProject st pid b).2.workspaces = none
    ∧ getVal pid (deleteProject st pid b).2.devServers = none
    ∧ (∀ run q, getVal pid st.devServers = some run → isActive run.status = true →
        run.port = some q → q ∈ (deleteProject st pid b).2.freePorts)
    ∧ (∀ run, getVal pid st.devServers = some run → b = true →
        ("failed to stop dev server for " ++ pid)
          ∈ (deleteProject st pid b).2.eventLog) := by
  refine ⟨fst_deleteProject b hpr, ?_, ?_, ?_, ?_, ?_⟩
  · intro pr hmem
    unfold listProjects at hmem
    rw [projects_deleteProject b hpr] at hmem
    obtain ⟨e, he, heq⟩ := List.mem_map.1 hmem
    obtain ⟨hin, hkey⟩ := (mem_delVal).1 he
    have hco : e.2.id = e.1 := h.2.2.2.2.2.1 e hin
    rw [← heq, hco]
    exact hkey
  · rw [workspaces_deleteProject b hpr]
    exact getVal_delVal_self pid st.workspaces
  · rw [devServers_deleteProject b hpr]
    exact devServers_devCleanup_none st pid b
  · intro run q hrun hact hq
    exact delete_port_released b hpr hrun hact hq
  · intro run hrun hb
    rw [eventLog_deleteProject b hpr, hb]
    exact eventLog_devCleanup_logged hrun

/-- Witness for C4 at the concrete example state: deleting p1 with a failed
stop (b = true) still succeeds and removes every trace of the project. -/
theorem deleteProject_removes_project_witness :
    Inv exSt
    ∧ (deleteProject exSt "p1" true).1 = Except.ok ()
    ∧ getVal "p1" (deleteProject exSt "p1" true).2.workspaces = none
    ∧ getVal "p1" (deleteProject exSt "p1" true).2.devServers = none :=
  ⟨by decide,
    (deleteProject_removes_project exSt "p1" exProj1 true (by decide) (by decide)).1,
    (deleteProject_removes_project exSt "p1" exProj1 true (by decide) (by decide)).2.2.1,
    (deleteProject_removes_project exSt "p1" exProj1 true (by decide) (by decide)).2.2.2.1⟩

/-- C5: a DeploymentRecord only moves forward: Update is the sole mutator
(every other operation, and Update on a different id, leaves the record
untouched), a record in a terminal status is immutable under every
operation, and a successful Update strictly increases the status rank
along pending, building, deploying, success/failed. -/
theorem deployment_forward_only (st : MgrState) (did : Nat) (r : DeploymentRecord)
    (h : Inv st) (hr : getVal did st.deployments = some r) :
    (∀ op, (∀ s lu uu, op ≠ Op.updateDeployment did s lu uu) →
        getVal did (applyOp op st).deployments = some r)
    ∧ (isTerminal r.status = true →
        ∀ op, getVal did (applyOp op st).deployments = some r)
    ∧ (∀ s lu uu st2, updateDeployment st did s lu uu = (Except.ok (), st2) →
        forwardAllowed r.status s = true ∧ statusRank r.status < statusRank s) := by
  refine ⟨?_, ?_, ?_⟩
  · intro op hop
    exact deployments_unchanged_non_update op st h hr hop
  · intro hterm op
    exact deployments_terminal_immutable op st h hr hterm
  · intro s lu uu st2 heq
    unfold updateDeployment at heq
    rw [hr] at heq
    cases hfa : forwardAllowed r.status s with
    | true => exact ⟨rfl, forwardAllowed_rank hfa⟩
    | false =>
      simp only [hfa, Bool.false_eq_true, if_neg] at heq
      simp at heq

/-- Witness for C5 at the concrete example state: the terminal record
exDep1 survives an Update that tries to drive it to failed. -/
theorem deployment_forward_only_witness :
    Inv exSt
    ∧ getVal 1
        (applyOp (Op.updateDeployment 1 DeployStatus.failed none none) exSt).deployments
      = some exDep1 :=
  ⟨by decide,
    (deployment_forward_only exSt 1 exDep1 (by decide) (by decide)).2.1 (by decide)
      (Op.updateDeployment 1 DeployStatus.failed none none)⟩

/-- C6: file round trip - WriteFile of "hello" to "a.txt" followed by
ReadFile of "a.txt" returns "hello", and extracting the archive produced
by ExportArchive reproduces exactly the project's file set with identical
contents (the extracted tree has the same lookup function as the
workspace). -/
theorem file_roundtrip (st : MgrState) (pid : String) (ws : FileTree)
    (h : Inv st) (hws : getVal pid st.workspaces = some ws) :
    ((writeFile st pid "a.txt" "hello").1 = Except.ok ()
      ∧ readFile (writeFile st pid "a.txt" "hello").2 pid "a.txt"
          = Except.ok "hello")
    ∧ (exportArchive st pid = Except.ok (exportTree ws)
      ∧ ∀ q, getVal q (extractTree (exportTree ws)) = getVal q ws) := by
  refine ⟨write_read_roundtrip hws, ?_, ?_⟩
  · unfold exportArchive
    rw [hws]
  · intro q
    exact extract_export_getVal ws (h.2.2.2.2.2.2.1 (pid, ws) (mem_of_getVal_some hws)) q

/-- Witness for C6 at the concrete example state and project p1. -/
theorem file_roundtrip_witness :
    Inv exSt
    ∧ readFile (writeFile exSt "p1" "a.txt" "hello").2 "p1" "a.txt"
        = Except.ok "hello"
    ∧ getVal ["main.py"]
        (extractTree (exportTree [(["main.py"], "print(1)\n")]))
      = getVal ["main.py"] [(["main.py"], "print(1)\n")] :=
  ⟨by decide,
    (file_roundtrip exSt "p1" [(["main.py"], "print(1)\n")]
      (by decide) (by decide)).1.2,
    (file_roundtrip exSt "p1" [(["main.py"], "print(1)\n")]
      (by decide) (by decide)).2.2 ["main.py"]⟩

/-- C7: StopDevServer on a project with no run in status starting or
running fails with NotRunning and has no side effects: the returned state
is exactly the input state, so no registry entry, port pool, process or
workspace state changes. -/
theorem stopDevServer_not_running (st : MgrState) (pid : String)
    (h : getVal pid st.devServers = none ∨
         ∃ r, getVal pid st.devServers = some r ∧ isActive r.status = false) :
    stopDevServer st pid = (Except.error Err.NotRunning, st) :=
  stop_not_running h

/-- Witness for C7 at the concrete example state: p3 has only a crashed
(error-status) run, so Stop fails with NotRunning and returns the state
verbatim. -/
theorem stopDevServer_not_running_witness :
    stopDevServer exSt "p3" = (Except.error Err.NotRunning, exSt) :=
  stopDevServer_not_running exSt "p3" (Or.inr ⟨exRun3, by decide, by decide⟩)

/-- C8: one supervisor poll cycle - executed in the background, with no
active Poll call needed - drives a running run whose process exited with a
non-zero code to status error, appends the diagnostic line carrying the
exit code to its logs, sets its port to none and releases it to the pool,
and retains the record in the registry so the crash stays observable until
the next query or explicit stop. -/
theorem crash_detected_within_one_poll (st : MgrState) (exits : List (Nat × Int))
    (pid : String) (run : DevServerRun) (code : Int) (q : Nat)
    (hrun : getVal pid st.devServers = some run)
    (hst : run.status = DevStatus.running)
    (hport : run.port = some q)
    (hexit : getVal run.proc exits = some code)
    (hcode : code ≠ 0) :
    getVal pid (supervisorPoll st exits).devServers = some (crashRun run code)
    ∧ (crashRun run code).status = DevStatus.error
    ∧ crashMsg code ∈ (crashRun run code).logs
    ∧ (crashRun run code).port = none
    ∧ q ∈ (supervisorPoll st exits).freePorts := by
  refine ⟨poll_crash_run hrun hst hexit hcode, ?_, ?_, ?_,
    poll_port_released hrun hst hexit hcode hport⟩
  · show DevStatus.error = DevStatus.error
    rfl
  · show crashMsg code ∈ pushLog run.logs (crashMsg code)
    exact mem_pushLog run.logs (crashMsg code)
  · show (none : Option Nat) = none
    rfl

/-- Witness for C8 at the concrete example state: process 11 of project
p1's running server exits with code 1; one poll cycle marks the retained
record as error and frees port 3001. -/
theorem crash_detected_within_one_poll_witness :
    getVal "p1" (supervisorPoll exSt [(11, 1)]).devServers = some (crashRun exRun1 1)
    ∧ 3001 ∈ (supervisorPoll exSt [(11, 1)]).freePorts :=
  ⟨(crash_detected_within_one_poll exSt [(11, 1)] "p1" exRun1 1 3001
      (by decide) (by decide) (by decide) (by decide) (by decide)).1,
    (crash_detected_within_one_poll exSt [(11, 1)] "p1" exRun1 1 3001
      (by decide) (by decide) (by decide) (by decide) (by decide)).2.2.2.2⟩

/-- C9: get_secret never raises - every retrieval failure (client error,
missing SecretString key, unparsable payload) is caught and the empty
mapping returned, so callers cannot distinguish an absent secret from any
other retrieval failure. -/
theorem get_secret_never_raises (b : SecretsBackend) (secret_name : String)
    (h : RetrievalFails b secret_name) :
    get_secret b secret_name = []
    ∧ ∀ (b2 : SecretsBackend) (n2 : String), RetrievalFails b2 n2 →
        get_secret b secret_name = get_secret b2 n2 := by
  refine ⟨get_secret_eq_nil h, ?_⟩
  intro b2 n2 h2
  rw [get_secret_eq_nil h, get_secret_eq_nil h2]

/-- Witness for C9 at a concrete failing backend and the production secret
name computed by src/main.py. -/
theorem get_secret_never_raises_witness :
    get_secret exFailingSecrets "oreus-api-keys-production" = [] :=
  (get_secret_never_raises exFailingSecrets "oreus-api-keys-production" True.intro).1

/-- C10: the health check is unconditionally healthy - for every
environment configuration the response has status healthy and version
1.0.0, and each backing service is reported only as configured or
not_configured; no configuration yields a non-healthy status. -/
theorem health_check_always_healthy (env : EnvConfig) :
    (health_check env).status = "healthy"
    ∧ (health_check env).version = "1.0.0"
    ∧ ∀ kv ∈ (health_check env).services,
        kv.2 = "configured" ∨ kv.2 = "not_configured" := by
  refine ⟨rfl, rfl, ?_⟩
  intro kv hkv
  have hflag : ∀ b2 : Bool,
      configuredFlag b2 = "configured" ∨ configuredFlag b2 = "not_configured" := by
    intro b2
    cases b2
    · exact Or.inr rfl
    · exact Or.inl rfl
  unfold health_check at hkv
  simp only [List.mem_cons, List.not_mem_nil, or_false] at hkv
  rcases hkv with h1 | h1 | h1 | h1 | h1 | h1 <;> rw [h1] <;> exact hflag _
